import Mathlib

/-!
Verification of the n8n MCP server core against its specification.

This file gives a shallow embedding of the two core components:

* the response budgeter (`estimateTokenCount`, `truncateResponse`,
  `truncateExecutionItem` from the compiled server source), working over a
  model of JSON values and of `JSON.stringify(value, null, 2)`;
* the node-registry cache and validator (`node-validator.js`):
  `fetch_node_registry` (success and failure paths), `add_fallback_nodes`,
  `find_similar_node_type`, `calculate_similarity`, `levenshtein_distance`,
  `validate_node_type`, `validate_workflow_nodes`,
  `ensure_node_registry_is_loaded` (the latter as a small-step transition
  system over interleaved callers, matching JavaScript's cooperative
  single-threaded scheduling in which code between `await` points runs
  atomically).

JavaScript numbers are modelled as `Int`/`Nat` where only integers occur and
as `ℚ` for the similarity scores; machine time (`Date.now()`) is a `Nat`.
-/

namespace NodeMCP

/-! ## JSON value model

JavaScript values reaching the budgeter are modelled by `Json`.  The nested
lists are materialised as mutual inductives so that all recursions are
structural (and hence kernel-reducible).  Object fields are kept in insertion
order, as JavaScript preserves it both in object literals and in
`JSON.stringify`. -/

mutual

inductive Json where
  | null
  | bool (b : Bool)
  | num (n : Int)
  | str (s : String)
  | arr (xs : JsonList)
  | obj (fs : JsonFields)

inductive JsonList where
  | nil
  | cons (hd : Json) (tl : JsonList)

inductive JsonFields where
  | nil
  | cons (k : String) (v : Json) (tl : JsonFields)

end

/-- Indentation used by `JSON.stringify(v, null, 2)`: `n` space characters. -/
def spaces (n : Nat) : String := String.mk (List.replicate n ' ')

/-- Escape of a single character inside a JSON string literal, as performed by
`JSON.stringify` (quote, backslash, the named control escapes, and `\u00XX`
for the remaining control characters). -/
def escChar (c : Char) : List Char :=
  if c = '"' then ['\\', '"']
  else if c = '\\' then ['\\', '\\']
  else if c = '\n' then ['\\', 'n']
  else if c = '\r' then ['\\', 'r']
  else if c = '\t' then ['\\', 't']
  else if c = '\x08' then ['\\', 'b']
  else if c = '\x0c' then ['\\', 'f']
  else if c.toNat < 32 then
    ['\\', 'u', '0', '0', Nat.toDigits 16 c.toNat |>.headD '0',
      (Nat.toDigits 16 c.toNat).getLastD '0']
  else [c]

/-- Body of a JSON string literal: every character escaped. -/
def jsEscape (s : String) : String :=
  String.mk (s.data.foldr (fun c acc => escChar c ++ acc) [])

/-- A JSON string literal: `"` + escaped body + `"`. -/
def jsQuote (s : String) : String := "\"" ++ jsEscape s ++ "\""

mutual

/-- Model of `JSON.stringify(v, null, 2)` at nesting indentation `ind`. -/
def stringifyAux : Json → Nat → String
  | .null, _ => "null"
  | .bool b, _ => if b then "true" else "false"
  | .num n, _ => toString n
  | .str s, _ => jsQuote s
  | .arr .nil, _ => "[]"
  | .arr (.cons x xs), ind =>
      "[\n" ++ stringifyItems (.cons x xs) (ind + 2) ++ "\n" ++ spaces ind ++ "]"
  | .obj .nil, _ => "\x7b\x7d"
  | .obj (.cons k v fs), ind =>
      "\x7b\n" ++ stringifyFields (.cons k v fs) (ind + 2) ++ "\n" ++ spaces ind ++ "\x7d"

/-- Array elements of `JSON.stringify`, one per line, comma-separated. -/
def stringifyItems : JsonList → Nat → String
  | .nil, _ => ""
  | .cons x .nil, ind => spaces ind ++ stringifyAux x ind
  | .cons x (.cons y ys), ind =>
      spaces ind ++ stringifyAux x ind ++ ",\n" ++ stringifyItems (.cons y ys) ind

/-- Object fields of `JSON.stringify`, one per line, comma-separated. -/
def stringifyFields : JsonFields → Nat → String
  | .nil, _ => ""
  | .cons k v .nil, ind => spaces ind ++ jsQuote k ++ ": " ++ stringifyAux v ind
  | .cons k v (.cons k2 v2 gs), ind =>
      spaces ind ++ jsQuote k ++ ": " ++ stringifyAux v ind ++ ",\n"
        ++ stringifyFields (.cons k2 v2 gs) ind

end

/-- `JSON.stringify(v, null, 2)` as used by the budgeter. -/
def jsonStringify (v : Json) : String := stringifyAux v 0

/-- Property lookup `fs[key]` on object fields; `none` models `undefined`. -/
def fieldsGet : JsonFields → String → Option Json
  | .nil, _ => none
  | .cons k v fs, key => if k = key then some v else fieldsGet fs key

/-- JavaScript property access `v[key]`: only objects carry named fields here;
on every other value the access yields `undefined` (`none`). -/
def jsGet (v : Json) (key : String) : Option Json :=
  match v with
  | .obj fs => fieldsGet fs key
  | _ => none

/-- JavaScript truthiness of a value: `null`, `false`, `0` and `""` are falsy;
arrays and objects are always truthy. -/
def jsTruthy : Json → Bool
  | .null => false
  | .bool b => b
  | .num n => !(n = 0)
  | .str s => !(s = "")
  | .arr _ => true
  | .obj _ => true

/-- Test for `value && typeof value === 'object'`: a (non-null) object or an
array. -/
def jsIsObjectLike : Json → Bool
  | .arr _ => true
  | .obj _ => true
  | _ => false

/-- Length of a `JsonList`. -/
def jsonListLength : JsonList → Nat
  | .nil => 0
  | .cons _ tl => jsonListLength tl + 1

/-- Number of fields of a `JsonFields`. -/
def jsonFieldsLength : JsonFields → Nat
  | .nil => 0
  | .cons _ _ tl => jsonFieldsLength tl + 1

/-- `Object.keys(v).length`: field count for objects, element count for
arrays, character count for strings, `0` otherwise. -/
def jsKeysLength : Json → Nat
  | .obj fs => jsonFieldsLength fs
  | .arr xs => jsonListLength xs
  | .str s => s.length
  | _ => 0

/-- Conversion of an association list into `JsonFields`. -/
def fieldsOfList : List (String × Json) → JsonFields
  | [] => .nil
  | (k, v) :: rest => .cons k v (fieldsOfList rest)

/-- `map` over a `JsonList`. -/
def mapJsonList (f : Json → Json) : JsonList → JsonList
  | .nil => .nil
  | .cons x xs => .cons (f x) (mapJsonList f xs)

/-- `str.substring(0, n)` of the source's hard-truncation tier. -/
def jsSubstring (s : String) (n : Nat) : String := String.mk (s.data.take n)

/-! ## Response budgeter -/

/-- `MAX_RESPONSE_TOKENS` from the source. -/
def MAX_RESPONSE_TOKENS : Nat := 8000

/-- `TRUNCATION_MESSAGE` from the source. -/
def TRUNCATION_MESSAGE : String :=
  "\n\n[Response truncated due to size limits. Use more specific filtering or pagination to get complete data.]"

/-- `estimateTokenCount(text) = Math.ceil(text.length / 3.5)`; in `Nat`
arithmetic, `⌈L / 3.5⌉ = ⌈2L / 7⌉ = (2L + 6) / 7`. -/
def estimateTokenCount (text : String) : Nat := (2 * text.length + 6) / 7

/-- `truncateExecutionItem(execution)`: the field projection used by the
budgeter's middle tier.  Falsy inputs are returned unchanged; otherwise the
identity/status/timing fields that are present (not `undefined`) are kept —
`JSON.stringify` drops `undefined`-valued properties, so assigning an absent
source field and dropping it at serialisation is modelled by omitting the
field — and if `execution.data` is object-like, a derived `dataSummary`
string is appended. -/
def truncateExecutionItem (e : Json) : Json :=
  if !(jsTruthy e) then e
  else
    let base := ["id", "mode", "status", "startedAt", "stoppedAt", "workflowId",
      "waitTill"].filterMap (fun k => (jsGet e k).map (fun v => (k, v)))
    let withSummary :=
      match jsGet e "data" with
      | some d =>
          if jsIsObjectLike d then
            let hasResults :=
              match (jsGet d "resultData").bind (fun r => jsGet r "runData") with
              | some rd => if jsTruthy rd then jsKeysLength rd else 0
              | none => 0
            base ++ [("dataSummary", Json.str (toString hasResults ++ " nodes executed"))]
          else base
      | none => base
    Json.obj (fieldsOfList withSummary)

/-- Replacement of the value stored under key `"data"`, keeping field order:
models the spread `{...obj, data: mapped}` when `obj` already has `data`. -/
def setDataField : JsonFields → Json → JsonFields
  | .nil, _ => .nil
  | .cons k v fs, nv =>
      if k = "data" then .cons k nv (setDataField fs nv)
      else .cons k v (setDataField fs nv)

/-- Test `obj.data && Array.isArray(obj.data)`: when `obj` is an object whose
`data` field holds an array, returns the object's fields (for the spread
`{...obj, data: ...}`) and the array's elements. -/
def dataArray : Json → Option (JsonFields × JsonList)
  | .obj fs =>
      match fieldsGet fs "data" with
      | some (.arr items) => some (fs, items)
      | _ => none
  | _ => none

/-- `truncateResponse(obj)`: tier 1 passes the full serialisation through when
it fits the budget; tier 2 projects the elements of an `obj.data` array via
`truncateExecutionItem` and appends the truncation marker when the projection
fits; tier 3 hard-cuts the original serialisation at
`MAX_RESPONSE_TOKENS * 4` characters and appends the marker.  (The source's
`jsonString`/`truncatedString` local constants are inlined; they are pure.) -/
def truncateResponse (obj : Json) : String :=
  if estimateTokenCount (jsonStringify obj) ≤ MAX_RESPONSE_TOKENS then jsonStringify obj
  else
    match dataArray obj with
    | some (fs, items) =>
        if estimateTokenCount (jsonStringify (Json.obj (setDataField fs
            (Json.arr (mapJsonList truncateExecutionItem items)))))
            ≤ MAX_RESPONSE_TOKENS then
          jsonStringify (Json.obj (setDataField fs
            (Json.arr (mapJsonList truncateExecutionItem items)))) ++ TRUNCATION_MESSAGE
        else jsSubstring (jsonStringify obj) (MAX_RESPONSE_TOKENS * 4) ++ TRUNCATION_MESSAGE
    | none => jsSubstring (jsonStringify obj) (MAX_RESPONSE_TOKENS * 4) ++ TRUNCATION_MESSAGE

/-! ## Claims C2 and C7: budget-or-marker, and idempotence -/

/-- The `29000`-character string used to build an over-budget response. -/
def bigX : String := String.mk (List.replicate 29000 'x')

/-- An execution item with a huge payload field. -/
def c2item : Json :=
  .obj (.cons "id" (.str "1") (.cons "big" (.str bigX) .nil))

/-- An over-budget response object with a `data` array. -/
def c2BigObj : Json := .obj (.cons "data" (.arr (.cons c2item .nil)) .nil)

/-- Tier-2 output on `c2BigObj`: the serialisation of the projected object. -/
def c2TruncLit : String := "\x7b\n  \"data\": [\n    \x7b\n      \"id\": \"1\"\n    \x7d\n  ]\n\x7d"

theorem escChar_x : escChar 'x' = ['x'] := by decide

theorem jsEscape_bigX : jsEscape bigX = bigX := by
  have h : ∀ n, List.foldr (fun c acc => escChar c ++ acc) [] (List.replicate n 'x')
      = List.replicate n 'x' := by
    intro n
    induction n with
    | zero => rfl
    | succ n ih =>
        rw [List.replicate_succ, List.foldr_cons, ih, escChar_x]
        rfl
  show String.mk (List.foldr (fun c acc => escChar c ++ acc) [] bigX.data) = bigX
  rw [show bigX.data = List.replicate 29000 'x' from rfl, h]
  rfl

theorem length_c2BigObj : (jsonStringify c2BigObj).length = 29064 := by
  have hb : bigX.length = 29000 := by
    rw [bigX, String.length_mk, List.length_replicate]
  have h1 : jsQuote "data" = "\"data\"" := by decide
  have h2 : jsQuote "id" = "\"id\"" := by decide
  have h3 : jsQuote "1" = "\"1\"" := by decide
  have h4 : jsQuote "big" = "\"big\"" := by decide
  have h9 : jsQuote bigX = "\"" ++ (bigX ++ "\"") := by
    rw [jsQuote, jsEscape_bigX, String.append_assoc]
  simp only [c2BigObj, c2item, jsonStringify, stringifyAux, stringifyFields,
    stringifyItems, h1, h2, h3, h4, h9]
  simp only [String.length_append, hb]
  simp only [spaces, String.length_mk, List.length_replicate]
  decide

theorem c2BigObj_over_budget :
    ¬ estimateTokenCount (jsonStringify c2BigObj) ≤ MAX_RESPONSE_TOKENS := by
  rw [estimateTokenCount, length_c2BigObj]
  decide

set_option maxRecDepth 10000 in
/-- The value `truncateResponse` produces on `c2BigObj`: the field-projected
object's serialisation followed by the truncation marker. -/
theorem truncateResponse_c2BigObj :
    truncateResponse c2BigObj = c2TruncLit ++ TRUNCATION_MESSAGE := by
  have hitem : truncateExecutionItem c2item
      = Json.obj (.cons "id" (.str "1") .nil) := by
    simp [truncateExecutionItem, c2item, jsTruthy, jsGet, fieldsGet, fieldsOfList]
  have hsmall : jsonStringify (Json.obj (.cons "data"
      (Json.arr (.cons (Json.obj (.cons "id" (.str "1") .nil)) .nil)) .nil))
      = c2TruncLit := by
    decide
  have hest : estimateTokenCount c2TruncLit ≤ MAX_RESPONSE_TOKENS := by decide
  have hda : dataArray c2BigObj = some (.cons "data" (.arr (.cons c2item .nil)) .nil,
      .cons c2item .nil) := by
    simp [dataArray, c2BigObj, fieldsGet]
  rw [truncateResponse, if_neg c2BigObj_over_budget, hda]
  simp only [mapJsonList, hitem, setDataField]
  simp only [String.reduceEq, reduceIte, hsmall]
  rw [if_pos hest]

set_option maxRecDepth 10000 in
/-- Claim C2 is false as stated: the two outcomes are not mutually exclusive.
On `c2BigObj` the middle (field-projection) tier produces a string that both
ends with the truncation marker and has an estimated token count within the
budget. -/
theorem claim_C2_counterexample :
    (∃ p, truncateResponse c2BigObj = p ++ TRUNCATION_MESSAGE)
    ∧ estimateTokenCount (truncateResponse c2BigObj) ≤ MAX_RESPONSE_TOKENS := by
  refine ⟨⟨_, truncateResponse_c2BigObj⟩, ?_⟩
  rw [truncateResponse_c2BigObj]
  decide

/-- C2, amended: for every value, the string returned by `truncateResponse`
has an estimated token count at most `MAX_RESPONSE_TOKENS`, or ends with
`TRUNCATION_MESSAGE` — at least one of the two always holds, but they are not
mutually exclusive (the middle tier can satisfy both). -/
theorem claim_C2_theorem (v : Json) :
    estimateTokenCount (truncateResponse v) ≤ MAX_RESPONSE_TOKENS
    ∨ ∃ p, truncateResponse v = p ++ TRUNCATION_MESSAGE := by
  rw [truncateResponse]
  split
  · exact Or.inl (by assumption)
  · split
    · split
      · exact Or.inr ⟨_, rfl⟩
      · exact Or.inr ⟨_, rfl⟩
    · exact Or.inr ⟨_, rfl⟩

/-- Claim C7 is false as stated: `truncateResponse` is not idempotent even on
values within budget, because applying it to its own (string) output
serialises that string again, wrapping it in quotes and escaping it.  At
`Json.str "a"` (well within budget) the two sides differ. -/
theorem claim_C7_counterexample :
    estimateTokenCount (jsonStringify (Json.str "a")) ≤ MAX_RESPONSE_TOKENS
    ∧ truncateResponse (Json.str (truncateResponse (Json.str "a")))
        ≠ truncateResponse (Json.str "a") := by decide

/-- C7, amended: for a value whose full serialisation is within budget,
`truncateResponse` is the pass-through tier — it returns exactly
`JSON.stringify(value, null, 2)`.  (Literal idempotence fails because feeding
the returned string back re-serialises it as a quoted JSON string.) -/
theorem claim_C7_theorem (v : Json)
    (h : estimateTokenCount (jsonStringify v) ≤ MAX_RESPONSE_TOKENS) :
    truncateResponse v = jsonStringify v := by
  rw [truncateResponse, if_pos h]

/-- Witness for C7's amended theorem at `Json.null`. -/
theorem claim_C7_witness : truncateResponse Json.null = jsonStringify Json.null :=
  claim_C7_theorem Json.null (by decide)

/-! ## Similarity matcher

`levenshtein_distance` is the source's dynamic-programming matrix, rendered
row by row: `lev_row_go` fills one row from the previous row
(`p` = `matrix[i-1][j]`, `left` = `matrix[i][j-1]`, `diag` = `matrix[i-1][j-1]`),
`lev_next_row` starts a row with its index `i` (`matrix[i] = [i]`), and
`lev_rows` iterates over the first string's characters.  `editDistance` is the
textbook recursive Levenshtein distance, written from the specification's
words for the refinement proof `levenshtein_eq_editDistance`. -/

/-- Substitution cost `a[i-1] === b[j-1] ? 0 : 1`. -/
def lev_cost (x y : Char) : Nat := if x = y then 0 else 1

/-- Inner loop `for (j = 1; j <= b.length; j++)` of the source's matrix fill:
`matrix[i][j] = min(matrix[i-1][j] + 1, matrix[i][j-1] + 1,
matrix[i-1][j-1] + cost)`. -/
def lev_row_go (x : Char) : List Nat → List Char → Nat → Nat → List Nat
  | p :: ps, y :: ys, diag, left =>
      min (p + 1) (min (left + 1) (diag + lev_cost x y))
        :: lev_row_go x ps ys p (min (p + 1) (min (left + 1) (diag + lev_cost x y)))
  | _, _, _, _ => []

/-- Row `i` of the matrix: initialised to `[i]` and then filled. -/
def lev_next_row (x : Char) (b : List Char) (prev : List Nat) (i : Nat) : List Nat :=
  match prev with
  | p :: ps => i :: lev_row_go x ps b p i
  | [] => [i]

/-- Outer loop `for (i = 1; i <= a.length; i++)`. -/
def lev_rows (b : List Char) : List Char → List Nat → Nat → List Nat
  | [], prev, _ => prev
  | x :: xs, prev, i => lev_rows b xs (lev_next_row x b prev i) (i + 1)

/-- `levenshtein_distance(a, b)`: row 0 is `[0, 1, ..., b.length]`
(`matrix[0][j] = j`), rows `1..a.length` are filled in turn, and the result is
`matrix[a.length][b.length]` — the last entry of the final row. -/
def levenshtein_distance (a b : String) : Nat :=
  (lev_rows b.data a.data (List.range (b.data.length + 1)) 1).getLastD 0

/-- Modelled from the spec's words ("classic dynamic-programming string edit
distance counting insertions, deletions, substitutions as unit cost"): the
textbook recursive Levenshtein distance, used to state what the source's
matrix computes. -/
def editDistance : List Char → List Char → Nat
  | [], ys => ys.length
  | _ :: xs, [] => xs.length + 1
  | x :: xs, y :: ys =>
      min (editDistance xs (y :: ys) + 1)
        (min (editDistance (x :: xs) ys + 1) (editDistance xs ys + lev_cost x y))
termination_by xs ys => (xs.length, ys.length)

theorem editDistance_nil_left (ys : List Char) : editDistance [] ys = ys.length := by
  rw [editDistance]

theorem editDistance_cons_nil (x : Char) (xs : List Char) :
    editDistance (x :: xs) [] = xs.length + 1 := by
  rw [editDistance]

theorem editDistance_cons_cons (x y : Char) (xs ys : List Char) :
    editDistance (x :: xs) (y :: ys)
      = min (editDistance xs (y :: ys) + 1)
          (min (editDistance (x :: xs) ys + 1) (editDistance xs ys + lev_cost x y)) := by
  rw [editDistance]

theorem editDistance_nil_right (xs : List Char) : editDistance xs [] = xs.length := by
  cases xs with
  | nil => rw [editDistance_nil_left]
  | cons x xs => rw [editDistance_cons_nil, List.length_cons]

/-- Reversed prefixes of `Y ++ ys` that strictly extend `Y`:
`[y₁ :: Y, y₂ :: y₁ :: Y, ...]`.  Row `i` of the source's matrix holds, at
column `j`, the distance between the reversed `i`-prefix of `a` and the
reversed `j`-prefix of `b`; this list enumerates the column arguments. -/
def revPrefixes : List Char → List Char → List (List Char)
  | [], _ => []
  | y :: ys, Y => (y :: Y) :: revPrefixes ys (y :: Y)

theorem lev_row_go_spec (x : Char) :
    ∀ (ys X Y : List Char),
      lev_row_go x ((revPrefixes ys Y).map (editDistance X)) ys
          (editDistance X Y) (editDistance (x :: X) Y)
        = (revPrefixes ys Y).map (editDistance (x :: X)) := by
  intro ys
  induction ys with
  | nil => intro X Y; rfl
  | cons y ys ih =>
      intro X Y
      rw [revPrefixes, List.map_cons, List.map_cons, lev_row_go,
        ← editDistance_cons_cons, ih X (y :: Y)]

theorem lev_next_row_spec (x : Char) (b X : List Char) :
    lev_next_row x b (editDistance X [] :: (revPrefixes b []).map (editDistance X))
        (X.length + 1)
      = editDistance (x :: X) [] :: (revPrefixes b []).map (editDistance (x :: X)) := by
  rw [lev_next_row, editDistance_cons_nil]
  rw [show (X.length + 1 : Nat) = editDistance (x :: X) [] from (editDistance_cons_nil x X).symm]
  rw [lev_row_go_spec]

theorem lev_rows_spec (b : List Char) :
    ∀ (xs X : List Char),
      lev_rows b xs (editDistance X [] :: (revPrefixes b []).map (editDistance X))
          (X.length + 1)
        = editDistance (xs.reverse ++ X) []
            :: (revPrefixes b []).map (editDistance (xs.reverse ++ X)) := by
  intro xs
  induction xs with
  | nil => intro X; rw [List.reverse_nil, List.nil_append]; rfl
  | cons x xs ih =>
      intro X
      rw [lev_rows, lev_next_row_spec]
      have h := ih (x :: X)
      rw [List.length_cons] at h
      rw [h, List.reverse_cons, List.append_assoc, List.singleton_append]

theorem map_editDistance_nil (l : List (List Char)) :
    l.map (editDistance []) = l.map List.length := by
  induction l with
  | nil => rfl
  | cons z l ih => rw [List.map_cons, List.map_cons, editDistance_nil_left, ih]

theorem revPrefixes_lengths :
    ∀ (ys Y : List Char), (revPrefixes ys Y).map List.length
      = List.range' (Y.length + 1) ys.length := by
  intro ys
  induction ys with
  | nil => intro Y; rfl
  | cons y ys ih =>
      intro Y
      rw [revPrefixes, List.map_cons, show (y :: ys).length = ys.length + 1 from rfl,
        List.range'_succ, ih (y :: Y), List.length_cons]

theorem initial_row_eq (b : List Char) :
    editDistance [] [] :: (revPrefixes b []).map (editDistance [])
      = List.range (b.length + 1) := by
  rw [editDistance_nil_left, map_editDistance_nil, revPrefixes_lengths,
    List.range_eq_range', List.range'_succ]
  rfl

theorem map_revPrefixes_getLastD (f : List Char → Nat) :
    ∀ (ys Y : List Char) (d : Nat),
      (f Y :: (revPrefixes ys Y).map f).getLastD d = f (ys.reverse ++ Y) := by
  intro ys
  induction ys with
  | nil => intro Y d; rw [List.reverse_nil, List.nil_append]; rfl
  | cons y ys ih =>
      intro Y d
      rw [revPrefixes, List.map_cons, List.getLastD_cons, ih (y :: Y) (f Y),
        List.reverse_cons, List.append_assoc, List.singleton_append]

theorem levenshtein_eq_editDistance_rev (a b : String) :
    levenshtein_distance a b = editDistance a.data.reverse b.data.reverse := by
  rw [levenshtein_distance, ← initial_row_eq b.data]
  have h := lev_rows_spec b.data a.data []
  rw [List.length_nil] at h
  rw [List.append_nil] at h
  rw [h, map_revPrefixes_getLastD (editDistance a.data.reverse) b.data [] 0,
    List.append_nil]

theorem min3_add (a b c e : Nat) :
    min a (min b c) + e = min (a + e) (min (b + e) (c + e)) := by
  rw [← min_add_add_right, ← min_add_add_right]

theorem min3_le_1 (a b c : Nat) : min a (min b c) ≤ a := min_le_left _ _

theorem min3_le_2 (a b c : Nat) : min a (min b c) ≤ b :=
  le_trans (min_le_right _ _) (min_le_left _ _)

theorem min3_le_3 (a b c : Nat) : min a (min b c) ≤ c :=
  le_trans (min_le_right _ _) (min_le_right _ _)

/-- The two orders of expanding the Levenshtein recurrence (delete/insert
outermost vs. snoc-position outermost) give the same value: both sides are
the minimum of the same nine quantities. -/
theorem min_shuffle (A1 A2 A3 B1 B2 B3 C1 C2 C3 cx caz : Nat) :
    min (min (A1 + 1) (min (A2 + 1) (A3 + cx)) + 1)
      (min (min (B1 + 1) (min (B2 + 1) (B3 + cx)) + 1)
        (min (C1 + 1) (min (C2 + 1) (C3 + cx)) + caz))
    = min (min (A1 + 1) (min (B1 + 1) (C1 + caz)) + 1)
        (min (min (A2 + 1) (min (B2 + 1) (C2 + caz)) + 1)
          (min (A3 + 1) (min (B3 + 1) (C3 + caz)) + cx)) := by
  apply le_antisymm
  · rw [min3_add (A1 + 1) (B1 + 1) (C1 + caz) 1,
      min3_add (A2 + 1) (B2 + 1) (C2 + caz) 1,
      min3_add (A3 + 1) (B3 + 1) (C3 + caz) cx]
    refine le_min (le_min ?_ (le_min ?_ ?_))
      (le_min (le_min ?_ (le_min ?_ ?_)) (le_min ?_ (le_min ?_ ?_)))
    · exact le_trans (min3_le_1 _ _ _) (Nat.add_le_add_right (min3_le_1 _ _ _) 1)
    · exact le_trans (min3_le_2 _ _ _) (Nat.add_le_add_right (min3_le_1 _ _ _) 1)
    · exact le_trans (le_trans (min3_le_3 _ _ _)
        (Nat.add_le_add_right (min3_le_1 _ _ _) caz)) (le_of_eq (by omega))
    · exact le_trans (min3_le_1 _ _ _) (Nat.add_le_add_right (min3_le_2 _ _ _) 1)
    · exact le_trans (min3_le_2 _ _ _) (Nat.add_le_add_right (min3_le_2 _ _ _) 1)
    · exact le_trans (le_trans (min3_le_3 _ _ _)
        (Nat.add_le_add_right (min3_le_2 _ _ _) caz)) (le_of_eq (by omega))
    · exact le_trans (le_trans (min3_le_1 _ _ _)
        (Nat.add_le_add_right (min3_le_3 _ _ _) 1)) (le_of_eq (by omega))
    · exact le_trans (le_trans (min3_le_2 _ _ _)
        (Nat.add_le_add_right (min3_le_3 _ _ _) 1)) (le_of_eq (by omega))
    · exact le_trans (le_trans (min3_le_3 _ _ _)
        (Nat.add_le_add_right (min3_le_3 _ _ _) caz)) (le_of_eq (by omega))
  · rw [min3_add (A1 + 1) (A2 + 1) (A3 + cx) 1,
      min3_add (B1 + 1) (B2 + 1) (B3 + cx) 1,
      min3_add (C1 + 1) (C2 + 1) (C3 + cx) caz]
    refine le_min (le_min ?_ (le_min ?_ ?_))
      (le_min (le_min ?_ (le_min ?_ ?_)) (le_min ?_ (le_min ?_ ?_)))
    · exact le_trans (min3_le_1 _ _ _) (Nat.add_le_add_right (min3_le_1 _ _ _) 1)
    · exact le_trans (min3_le_2 _ _ _) (Nat.add_le_add_right (min3_le_1 _ _ _) 1)
    · exact le_trans (le_trans (min3_le_3 _ _ _)
        (Nat.add_le_add_right (min3_le_1 _ _ _) cx)) (le_of_eq (by omega))
    · exact le_trans (min3_le_1 _ _ _) (Nat.add_le_add_right (min3_le_2 _ _ _) 1)
    · exact le_trans (min3_le_2 _ _ _) (Nat.add_le_add_right (min3_le_2 _ _ _) 1)
    · exact le_trans (le_trans (min3_le_3 _ _ _)
        (Nat.add_le_add_right (min3_le_2 _ _ _) cx)) (le_of_eq (by omega))
    · exact le_trans (le_trans (min3_le_1 _ _ _)
        (Nat.add_le_add_right (min3_le_3 _ _ _) 1)) (le_of_eq (by omega))
    · exact le_trans (le_trans (min3_le_2 _ _ _)
        (Nat.add_le_add_right (min3_le_3 _ _ _) 1)) (le_of_eq (by omega))
    · exact le_trans (le_trans (min3_le_3 _ _ _)
        (Nat.add_le_add_right (min3_le_3 _ _ _) cx)) (le_of_eq (by omega))

set_option maxHeartbeats 1600000 in
theorem editDistance_snoc_aux :
    ∀ (n : Nat) (u v : List Char) (x y : Char), u.length + v.length ≤ n →
      editDistance (u ++ [x]) (v ++ [y])
        = min (editDistance u (v ++ [y]) + 1)
            (min (editDistance (u ++ [x]) v + 1) (editDistance u v + lev_cost x y)) := by
  intro n
  induction n with
  | zero =>
      intro u v x y h
      have hu : u = [] := List.length_eq_zero.mp (by omega)
      have hv : v = [] := List.length_eq_zero.mp (by omega)
      subst hu; subst hv
      rw [List.nil_append, List.nil_append, editDistance_cons_cons]
  | succ n ih =>
      intro u v x y h
      match u, v with
      | [], [] =>
          rw [List.nil_append, List.nil_append, editDistance_cons_cons]
      | [], z :: v' =>
          have ih1 := ih [] v' x y (by simp at h ⊢; omega)
          rw [List.nil_append] at ih1
          simp only [List.nil_append, List.cons_append] at *
          rw [editDistance_cons_cons x z]
          rw [editDistance_cons_cons x z (List.nil) v']
          rw [ih1]
          have e1 : editDistance [] (v' ++ [y]) = v'.length + 1 := by
            rw [editDistance_nil_left, List.length_append, List.length_singleton]
          have e2 : editDistance [] v' = v'.length := editDistance_nil_left v'
          simp only [editDistance_nil_left, List.length_cons, List.length_append,
            List.length_singleton, e1, e2]
          omega
      | a :: u', [] =>
          have ih1 := ih u' [] x y (by simp at h ⊢; omega)
          rw [List.nil_append] at ih1
          simp only [List.nil_append, List.cons_append] at *
          rw [editDistance_cons_cons a y]
          rw [editDistance_cons_cons a y u' (List.nil)]
          rw [ih1]
          have e1 : editDistance (u' ++ [x]) [] = u'.length + 1 := by
            rw [editDistance_nil_right, List.length_append, List.length_singleton]
          have e2 : editDistance u' [] = u'.length := editDistance_nil_right u'
          have e3 : editDistance (a :: u' ++ [x]) [] = u'.length + 2 := by
            rw [editDistance_nil_right]
            simp
          have e4 : editDistance (a :: u') [] = u'.length + 1 := by
            rw [editDistance_nil_right]
            simp
          simp only [editDistance_nil_right, editDistance_cons_nil,
            List.length_cons, List.length_append, List.length_singleton, e1, e2, e3, e4]
          omega
      | a :: u', z :: v' =>
          have ih1 := ih u' (z :: v') x y (by simp at h ⊢; omega)
          have ih2 := ih (a :: u') v' x y (by simp at h ⊢; omega)
          have ih3 := ih u' v' x y (by simp at h ⊢; omega)
          simp only [List.cons_append] at *
          rw [editDistance_cons_cons a z (u' ++ [x]) (v' ++ [y])]
          rw [editDistance_cons_cons a z u' (v' ++ [y])]
          rw [editDistance_cons_cons a z (u' ++ [x]) v']
          rw [editDistance_cons_cons a z u' v']
          rw [ih1, ih2, ih3]
          exact min_shuffle _ _ _ _ _ _ _ _ _ _ _

theorem editDistance_snoc (u v : List Char) (x y : Char) :
    editDistance (u ++ [x]) (v ++ [y])
      = min (editDistance u (v ++ [y]) + 1)
          (min (editDistance (u ++ [x]) v + 1) (editDistance u v + lev_cost x y)) :=
  editDistance_snoc_aux (u.length + v.length) u v x y le_rfl

theorem editDistance_rev_aux :
    ∀ (n : Nat) (u v : List Char), u.length + v.length ≤ n →
      editDistance u.reverse v.reverse = editDistance u v := by
  intro n
  induction n with
  | zero =>
      intro u v h
      have hu : u = [] := List.length_eq_zero.mp (by omega)
      have hv : v = [] := List.length_eq_zero.mp (by omega)
      subst hu; subst hv; rfl
  | succ n ih =>
      intro u v h
      rcases u with _ | ⟨a, u'⟩
      · rw [List.reverse_nil, editDistance_nil_left, editDistance_nil_left,
          List.length_reverse]
      · rcases v with _ | ⟨z, v'⟩
        · rw [List.reverse_nil, editDistance_nil_right, editDistance_nil_right,
            List.length_reverse]
        · have ih1 := ih u' (z :: v') (by simp at h ⊢; omega)
          have ih2 := ih (a :: u') v' (by simp at h ⊢; omega)
          have ih3 := ih u' v' (by simp at h ⊢; omega)
          rw [List.reverse_cons, List.reverse_cons, editDistance_snoc]
          rw [show u'.reverse ++ [a] = (a :: u').reverse from (List.reverse_cons a u').symm]
          rw [show v'.reverse ++ [z] = (z :: v').reverse from (List.reverse_cons z v').symm]
          rw [ih1, ih2, ih3, editDistance_cons_cons]

/-- The source's DP matrix computes the textbook Levenshtein distance. -/
theorem levenshtein_eq_editDistance (a b : String) :
    levenshtein_distance a b = editDistance a.data b.data := by
  rw [levenshtein_eq_editDistance_rev]
  exact editDistance_rev_aux (a.data.length + b.data.length) a.data b.data le_rfl

/-- Character-wise `toLowerCase`, as JavaScript applies it to these ASCII
node-type names. -/
def strToLower (s : String) : String := String.mk (s.data.map Char.toLower)

theorem strToLower_length (s : String) : (strToLower s).length = s.length := by
  rw [strToLower, String.length_mk, List.length_map]
  rfl

/-- `calculate_similarity(a, b) = 1 - distance / max_length` over the
lower-cased strings; JavaScript's float arithmetic is modelled exactly in
`ℚ`.  (The one divergence is the `0/0` case, `NaN` in JavaScript: it can only
arise when both strings are empty, which the registry rules out since an
empty `name` is falsy and never stored.) -/
def calculate_similarity (a b : String) : ℚ :=
  1 - (levenshtein_distance (strToLower a) (strToLower b) : ℚ)
      / ((Nat.max (strToLower a).length (strToLower b).length : Nat) : ℚ)

/-- One iteration of `find_similar_node_type`'s loop over the registry keys:
update the running best when `score > best_score && score > 0.6`. -/
def fsnt_step (q : String) (acc : Option String × ℚ) (existing_type : String) :
    Option String × ℚ :=
  if calculate_similarity q existing_type > acc.2
      ∧ calculate_similarity q existing_type > 0.6 then
    (some existing_type, calculate_similarity q existing_type)
  else acc

/-- `find_similar_node_type(node_type)`: fold of the loop over the registry's
key sequence, starting from `best_match = null`, `best_score = 0`. -/
def find_similar_node_type (node_type : String) (keys : List String) : Option String :=
  (keys.foldl (fsnt_step node_type) (none, 0)).1

/-- Loop invariant of `find_similar_node_type`: after processing `processed`,
either no score above the threshold has been seen (and the accumulator is
still `(none, 0)`), or the accumulator holds the first key attaining the
running maximum — every earlier key scores strictly lower, every later one at
most as high. -/
def FoldInv (q : String) (processed : List String) (acc : Option String × ℚ) : Prop :=
  (acc = (none, 0) ∧ ∀ c ∈ processed, calculate_similarity q c ≤ 0.6)
  ∨ ∃ b l1 l2, acc = (some b, calculate_similarity q b)
      ∧ processed = l1 ++ b :: l2 ∧ calculate_similarity q b > 0.6
      ∧ (∀ c ∈ l1, calculate_similarity q c < calculate_similarity q b)
      ∧ (∀ c ∈ l2, calculate_similarity q c ≤ calculate_similarity q b)

theorem fsnt_step_inv (q : String) (processed : List String) (acc : Option String × ℚ)
    (c : String) (h : FoldInv q processed acc) :
    FoldInv q (processed ++ [c]) (fsnt_step q acc c) := by
  rcases h with ⟨hacc, hall⟩ | ⟨b, l1, l2, hacc, hproc, hgt, hl1, hl2⟩
  · subst hacc
    rw [fsnt_step]
    by_cases hc : calculate_similarity q c > (0 : ℚ) ∧ calculate_similarity q c > 0.6
    · rw [if_pos hc]
      right
      exact ⟨c, processed, [], rfl, rfl, hc.2,
        fun c' hc' => lt_of_le_of_lt (hall c' hc') hc.2,
        fun c' hc' => absurd hc' (List.not_mem_nil c')⟩
    · rw [if_neg hc]
      left
      refine ⟨rfl, fun c' hc' => ?_⟩
      rcases List.mem_append.mp hc' with h | h
      · exact hall c' h
      · have hcc : c' = c := by simpa using h
        subst hcc
        rcases not_and_or.mp hc with h0 | h06
        · exact le_trans (not_lt.mp h0) (by norm_num)
        · exact not_lt.mp h06
  · subst hacc
    rw [fsnt_step]
    by_cases hc : calculate_similarity q c > calculate_similarity q b
        ∧ calculate_similarity q c > 0.6
    · rw [if_pos hc]
      right
      refine ⟨c, processed, [], rfl, rfl, hc.2, fun c' hc' => ?_,
        fun c' hc' => absurd hc' (List.not_mem_nil c')⟩
      rw [hproc] at hc'
      rcases List.mem_append.mp hc' with h | h
      · exact lt_trans (hl1 c' h) hc.1
      · rcases List.mem_cons.mp h with h | h
        · rw [h]; exact hc.1
        · exact lt_of_le_of_lt (hl2 c' h) hc.1
    · rw [if_neg hc]
      right
      refine ⟨b, l1, l2 ++ [c], rfl, ?_, hgt, hl1, fun c' hc' => ?_⟩
      · rw [hproc, List.append_assoc, List.cons_append]
      · rcases List.mem_append.mp hc' with h | h
        · exact hl2 c' h
        · have hcc : c' = c := by simpa using h
          subst hcc
          rcases not_and_or.mp hc with hb | h06
          · exact not_lt.mp hb
          · exact le_of_lt (lt_of_le_of_lt (not_lt.mp h06) hgt)

theorem fsnt_fold_inv (q : String) :
    ∀ (keys processed : List String) (acc : Option String × ℚ),
      FoldInv q processed acc
      → FoldInv q (processed ++ keys) (keys.foldl (fsnt_step q) acc) := by
  intro keys
  induction keys with
  | nil =>
      intro processed acc h
      rw [List.append_nil]
      exact h
  | cons c keys ih =>
      intro processed acc h
      rw [List.foldl_cons]
      have h2 := ih (processed ++ [c]) (fsnt_step q acc c) (fsnt_step_inv q processed acc c h)
      rwa [List.append_assoc, List.singleton_append] at h2

theorem fsnt_inv_start (q : String) : FoldInv q [] (none, 0) :=
  Or.inl ⟨rfl, fun c hc => absurd hc (List.not_mem_nil c)⟩

/-- Claim C5: for every query and candidate key sequence (of non-empty keys,
the only kind the registry stores — an empty `name` is falsy and skipped),
the similarity score of a candidate is `1 - d / max(len(query), len(cand))`
with `d` the unit-cost Levenshtein distance of the lower-cased strings (the
denominator being positive on this domain); the suggestion returned attains
the maximal score, which is strictly above `0.6`, and an empty candidate set
or a maximal score at most `0.6` yields no suggestion. -/
theorem claim_C5_theorem (q : String) (keys : List String) (hne : ∀ c ∈ keys, c ≠ "") :
    (∀ c ∈ keys, calculate_similarity q c
        = 1 - (editDistance (strToLower q).data (strToLower c).data : ℚ)
            / ((Nat.max q.length c.length : Nat) : ℚ))
    ∧ (∀ c ∈ keys, (0 : ℚ) < ((Nat.max q.length c.length : Nat) : ℚ))
    ∧ (match find_similar_node_type q keys with
       | some b => b ∈ keys ∧ calculate_similarity q b > 0.6
           ∧ ∀ c ∈ keys, calculate_similarity q c ≤ calculate_similarity q b
       | none => ∀ c ∈ keys, calculate_similarity q c ≤ 0.6) := by
  refine ⟨?_, ?_, ?_⟩
  · intro c hc
    rw [calculate_similarity, levenshtein_eq_editDistance, strToLower_length,
      strToLower_length]
  · intro c hc
    have h1 : 1 ≤ c.length := by
      rcases c with ⟨cd⟩
      rcases cd with _ | ⟨ch, cd⟩
      · exact absurd rfl (hne _ hc)
      · rw [String.length_mk, List.length_cons]
        omega
    have h2 : (1 : ℚ) ≤ ((Nat.max q.length c.length : Nat) : ℚ) := by
      have : 1 ≤ Nat.max q.length c.length := le_trans h1 (Nat.le_max_right _ _)
      exact_mod_cast this
    linarith
  · have hinv := fsnt_fold_inv q keys [] (none, 0) (fsnt_inv_start q)
    rw [List.nil_append] at hinv
    rw [find_similar_node_type]
    rcases hinv with ⟨hacc, hall⟩ | ⟨b, l1, l2, hacc, hproc, hgt, hl1, hl2⟩
    · rw [hacc]
      exact hall
    · rw [hacc]
      refine ⟨?_, hgt, fun c hc => ?_⟩
      · rw [hproc]
        exact List.mem_append_right _ (List.mem_cons_self b l2)
      · rw [hproc] at hc
        rcases List.mem_append.mp hc with h | h
        · exact le_of_lt (hl1 c h)
        · rcases List.mem_cons.mp h with h | h
          · exact le_of_eq (by rw [h])
          · exact hl2 c h

theorem sim_ab_abc : calculate_similarity "ab" "abc" = 2/3 := by
  rw [calculate_similarity]
  rw [show levenshtein_distance (strToLower "ab") (strToLower "abc") = 1 from by decide]
  rw [show (strToLower "ab").length = 2 from by decide]
  rw [show (strToLower "abc").length = 3 from by decide]
  rw [show Nat.max 2 3 = 3 from by decide]
  norm_num

theorem sim_ab_abd : calculate_similarity "ab" "abd" = 2/3 := by
  rw [calculate_similarity]
  rw [show levenshtein_distance (strToLower "ab") (strToLower "abd") = 1 from by decide]
  rw [show (strToLower "ab").length = 2 from by decide]
  rw [show (strToLower "abd").length = 3 from by decide]
  rw [show Nat.max 2 3 = 3 from by decide]
  norm_num

theorem fsnt_eval_single : find_similar_node_type "ab" ["abc"] = some "abc" := by
  rw [find_similar_node_type, List.foldl_cons, List.foldl_nil]
  rw [fsnt_step, sim_ab_abc]
  rw [if_pos (by constructor <;> norm_num)]

theorem fsnt_eval_pair : find_similar_node_type "ab" ["abc", "abd"] = some "abc" := by
  have hstep1 : fsnt_step "ab" (none, 0) "abc" = (some "abc", 2/3) := by
    rw [fsnt_step, sim_ab_abc, if_pos (by constructor <;> norm_num)]
  rw [find_similar_node_type, List.foldl_cons, List.foldl_cons, List.foldl_nil, hstep1]
  rw [fsnt_step, sim_ab_abd]
  rw [if_neg (by norm_num)]

/-- Witness for C5 at the query `"ab"` against the single key `"abc"`:
similarity `1 - 1/3 = 2/3 > 0.6`, so the suggestion is `"abc"`. -/
theorem claim_C5_witness :
    find_similar_node_type "ab" ["abc"] = some "abc"
    ∧ calculate_similarity "ab" "abc"
        = 1 - (editDistance (strToLower "ab").data (strToLower "abc").data : ℚ)
            / ((Nat.max ("ab" : String).length ("abc" : String).length : Nat) : ℚ)
    ∧ calculate_similarity "ab" "abc" > 0.6 := by
  have h := claim_C5_theorem "ab" ["abc"] (by decide)
  have hres : find_similar_node_type "ab" ["abc"] = some "abc" := fsnt_eval_single
  have h1 := h.1 "abc" (List.mem_singleton.mpr rfl)
  have h2 := h.2.2
  rw [hres] at h2
  exact ⟨hres, h1, h2.2.1⟩

/-- Claim C10: a returned suggestion is the first key of the iteration order
attaining the maximal similarity — every earlier key scores strictly lower
and every later key no higher, so a later equal scorer never displaces it. -/
theorem claim_C10_theorem (q : String) (keys : List String) (b : String)
    (h : find_similar_node_type q keys = some b) :
    ∃ l1 l2, keys = l1 ++ b :: l2
      ∧ (∀ c ∈ l1, calculate_similarity q c < calculate_similarity q b)
      ∧ (∀ c ∈ l2, calculate_similarity q c ≤ calculate_similarity q b)
      ∧ calculate_similarity q b > 0.6 := by
  have hinv := fsnt_fold_inv q keys [] (none, 0) (fsnt_inv_start q)
  rw [List.nil_append] at hinv
  rw [find_similar_node_type] at h
  rcases hinv with ⟨hacc, _⟩ | ⟨b', l1, l2, hacc, hproc, hgt, hl1, hl2⟩
  · rw [hacc] at h
    simp at h
  · rw [hacc] at h
    have hb : b' = b := by simpa using h
    subst hb
    exact ⟨l1, l2, hproc, hl1, hl2, hgt⟩

/-- Witness for C10: `"abc"` and `"abd"` both score `2/3` against `"ab"`; the
first one in iteration order, `"abc"`, is returned, and the later equal
scorer is bounded by it. -/
theorem claim_C10_witness :
    find_similar_node_type "ab" ["abc", "abd"] = some "abc"
    ∧ calculate_similarity "ab" "abd" ≤ calculate_similarity "ab" "abc" := by
  have hres : find_similar_node_type "ab" ["abc", "abd"] = some "abc" := fsnt_eval_pair
  have h := claim_C10_theorem "ab" ["abc", "abd"] "abc" hres
  refine ⟨hres, ?_⟩
  obtain ⟨l1, l2, hk, hl1, hl2, _⟩ := h
  have hm : "abd" ∈ l1 ++ "abc" :: l2 := by
    rw [← hk]
    decide
  rcases List.mem_append.mp hm with h1 | h1
  · exact le_of_lt (hl1 _ h1)
  · rcases List.mem_cons.mp h1 with h1 | h1
    · exact absurd h1 (by decide)
    · exact hl2 _ h1

/-! ## Registry cache

The descriptor record, the payload parsing of `fetch_node_registry`
(lines 112–131 of `node-validator.js`), the failure path (lines 134–142) and
`add_fallback_nodes`.  The registry `Map` is an insertion-ordered association
list; `registrySet` models `Map.prototype.set` (overwrite keeps the original
position, a new key is appended). -/

/-- A stored descriptor (the object built at lines 120–126 of the source).
Absent (`undefined`) fields are `none`. -/
structure NodeInfo where
  name : String
  display_name : String
  description : Option String := none
  type : Option String := none
  version : Option Nat := none
deriving DecidableEq

/-- One entry of the remote payload, as an explicit optional-field record:
`name`/`displayName` as optional strings, `description` optional, `group` an
optional list of strings, `version` an optional number. -/
structure RawNode where
  name : Option String := none
  displayName : Option String := none
  description : Option String := none
  group : Option (List String) := none
  version : Option Nat := none
deriving DecidableEq

/-- `Map.prototype.set`: overwrite in place if the key exists, else append. -/
def registrySet (reg : List (String × NodeInfo)) (k : String) (v : NodeInfo) :
    List (String × NodeInfo) :=
  if reg.any (fun p => p.1 == k) then
    reg.map (fun p => if p.1 = k then (k, v) else p)
  else reg ++ [(k, v)]

/-- The descriptor stored for an accepted payload entry:
`display_name = node.displayName || node.name` (so an empty `displayName`,
being falsy, also falls back to the name), `type = node.group?.join(', ')`,
`description` and `version` passed through. -/
def mk_node_info (s : String) (node : RawNode) : NodeInfo :=
  { name := s
    display_name :=
      match node.displayName with
      | some d => if d = "" then s else d
      | none => s
    description := node.description
    type := node.group.map (fun g => String.intercalate ", " g)
    version := node.version }

/-- The parsing loop of `fetch_node_registry`: the registry is cleared and
each payload entry whose `name` is truthy (present and non-empty) is stored
under that name; entries without a truthy `name` are skipped silently. -/
def parse_payload (data : List (String × RawNode)) : List (String × NodeInfo) :=
  data.foldl (fun reg kv =>
    match kv.2.name with
    | some s => if s ≠ "" then registrySet reg s (mk_node_info s kv.2) else reg
    | none => reg) []

/-- The hard-coded fallback dataset of `add_fallback_nodes`. -/
def fallback_nodes : List (String × String) :=
  [("n8n-nodes-base.start", "Start"),
   ("n8n-nodes-base.manualTrigger", "Manual Trigger"),
   ("n8n-nodes-base.httpRequest", "HTTP Request"),
   ("n8n-nodes-base.set", "Set"),
   ("n8n-nodes-base.function", "Function"),
   ("n8n-nodes-base.if", "IF"),
   ("n8n-nodes-base.switch", "Switch"),
   ("n8n-nodes-base.merge", "Merge")]

/-- `add_fallback_nodes`: store each fallback entry (name and display name
only) into the current registry. -/
def add_fallback_nodes (reg : List (String × NodeInfo)) : List (String × NodeInfo) :=
  fallback_nodes.foldl
    (fun r kv => registrySet r kv.1 { name := kv.1, display_name := kv.2 }) reg

/-- The registry cache's mutable state: the entries map and the last fetch
timestamp. -/
structure Registry where
  entries : List (String × NodeInfo)
  last_fetch_time : Nat
deriving DecidableEq

/-- Outcome of one remote fetch: a parsed payload object, or any failure
(network error, non-ok HTTP status, JSON parse error — all reach the same
`catch`). -/
inductive FetchResult where
  | ok (data : List (String × RawNode))
  | err
deriving DecidableEq

/-- The state update performed by one complete run of `fetch_node_registry`:
on success the registry is replaced wholesale by the parsed payload and
`last_fetch_time` is stamped; on failure with a non-empty registry the state
is left untouched (stale data keeps being served, the timestamp is NOT
updated); on failure with an empty registry the fallback dataset is installed
and the timestamp is stamped.  The `catch` swallows the error: no failure
propagates, which this total function models. -/
def fetch_apply (reg : Registry) (now : Nat) : FetchResult → Registry
  | .ok data => { entries := parse_payload data, last_fetch_time := now }
  | .err =>
      if reg.entries = [] then
        { entries := add_fallback_nodes reg.entries, last_fetch_time := now }
      else reg

/-- `get_available_node_types` (after the implicit `ensureFresh`): the key
sequence of the registry. -/
def get_available_node_types (reg : Registry) : List String :=
  reg.entries.map Prod.fst

/-- A sample non-empty registry used in counterexamples. -/
def regStale : Registry :=
  ⟨[("a.known", { name := "a.known", display_name := "A" })], 5⟩

/-- Claim C3: a failed refresh never propagates — with data present the
entries are served stale and unchanged, and with no data the fixed fallback
dataset of 8 entries (including `n8n-nodes-base.httpRequest`) is installed,
so `get_available_node_types` returns exactly those 8 names. -/
theorem claim_C3_theorem (reg : Registry) (now : Nat) :
    (reg.entries ≠ [] → (fetch_apply reg now .err).entries = reg.entries)
    ∧ (reg.entries = [] →
        get_available_node_types (fetch_apply reg now .err)
          = ["n8n-nodes-base.start", "n8n-nodes-base.manualTrigger",
             "n8n-nodes-base.httpRequest", "n8n-nodes-base.set",
             "n8n-nodes-base.function", "n8n-nodes-base.if",
             "n8n-nodes-base.switch", "n8n-nodes-base.merge"]
        ∧ "n8n-nodes-base.httpRequest"
            ∈ get_available_node_types (fetch_apply reg now .err)) := by
  constructor
  · intro h
    rw [fetch_apply, if_neg h]
  · intro h
    rw [fetch_apply, if_pos h, h]
    constructor
    · show (add_fallback_nodes []).map Prod.fst
        = ["n8n-nodes-base.start", "n8n-nodes-base.manualTrigger",
           "n8n-nodes-base.httpRequest", "n8n-nodes-base.set",
           "n8n-nodes-base.function", "n8n-nodes-base.if",
           "n8n-nodes-base.switch", "n8n-nodes-base.merge"]
      decide
    · show "n8n-nodes-base.httpRequest" ∈ (add_fallback_nodes []).map Prod.fst
      decide

/-- Witness for C3: from an empty registry, a failing refresh yields exactly
the 8 fallback node types. -/
theorem claim_C3_witness :
    get_available_node_types (fetch_apply ⟨[], 0⟩ 5 .err)
      = ["n8n-nodes-base.start", "n8n-nodes-base.manualTrigger",
         "n8n-nodes-base.httpRequest", "n8n-nodes-base.set",
         "n8n-nodes-base.function", "n8n-nodes-base.if",
         "n8n-nodes-base.switch", "n8n-nodes-base.merge"]
    ∧ "n8n-nodes-base.httpRequest"
        ∈ get_available_node_types (fetch_apply ⟨[], 0⟩ 5 .err) :=
  (claim_C3_theorem ⟨[], 0⟩ 5).2 rfl

/-- Claim C4 is false as stated: when the fetch fails and entries already
hold data, the code leaves `last_fetch_time` unchanged — it does NOT update
it to the current time (the timestamp update sits inside the
`registry.size === 0` branch only). -/
theorem claim_C4_counterexample :
    regStale.entries ≠ []
    ∧ (fetch_apply regStale 999 .err).last_fetch_time = 5
    ∧ (5 : Nat) ≠ 999 := by decide

/-- C4, amended: a failed refresh with non-empty entries leaves the whole
registry state untouched — the entries map unchanged AND `last_fetch_time`
unchanged (so the cache stays stale and the next `ensureFresh` will retry,
contrary to the spec's "update `last_refresh` to avoid refresh storms"). -/
theorem claim_C4_theorem (reg : Registry) (now : Nat) (h : reg.entries ≠ []) :
    fetch_apply reg now .err = reg := by
  rw [fetch_apply, if_neg h]

/-- Witness for C4's amended theorem. -/
theorem claim_C4_witness : fetch_apply regStale 999 .err = regStale :=
  claim_C4_theorem regStale 999 (by decide)

/-- The truthy `name` of a payload entry, if any: `some s` when the name is
present and non-empty. -/
def validName (n : RawNode) : Option String :=
  match n.name with
  | some s => if s = "" then none else some s
  | none => none

/-- One iteration of the parsing loop (named for the proofs below). -/
def parse_step (reg : List (String × NodeInfo)) (kv : String × RawNode) :
    List (String × NodeInfo) :=
  match kv.2.name with
  | some s => if s ≠ "" then registrySet reg s (mk_node_info s kv.2) else reg
  | none => reg

theorem parse_payload_eq_foldl (data : List (String × RawNode)) :
    parse_payload data = data.foldl parse_step [] := rfl

theorem parse_step_none (reg : List (String × NodeInfo)) (kv : String × RawNode)
    (h : kv.2.name = none) : parse_step reg kv = reg := by
  rw [parse_step, h]

theorem parse_step_some_empty (reg : List (String × NodeInfo)) (kv : String × RawNode)
    (h : kv.2.name = some "") : parse_step reg kv = reg := by
  rw [parse_step, h]
  show (if ("" : String) ≠ "" then registrySet reg "" (mk_node_info "" kv.2) else reg) = reg
  rw [if_neg (by simp)]

theorem parse_step_some (reg : List (String × NodeInfo)) (kv : String × RawNode)
    (s : String) (h : kv.2.name = some s) (hs : s ≠ "") :
    parse_step reg kv = registrySet reg s (mk_node_info s kv.2) := by
  rw [parse_step, h]
  show (if s ≠ "" then registrySet reg s (mk_node_info s kv.2) else reg) = _
  rw [if_pos hs]

theorem registrySet_ne (reg : List (String × NodeInfo)) (k : String) (v : NodeInfo) :
    registrySet reg k v ≠ [] := by
  rw [registrySet]
  by_cases hmem : reg.any (fun p => p.1 == k)
  · rw [if_pos hmem]
    intro hc
    rw [List.map_eq_nil_iff.mp hc] at hmem
    simp at hmem
  · rw [if_neg hmem]
    intro hc
    rcases List.append_eq_nil.mp hc with ⟨-, h2⟩
    simp at h2

theorem validName_none_cases (n : RawNode) (h : validName n = none) :
    n.name = none ∨ n.name = some "" := by
  rw [validName] at h
  rcases hn : n.name with _ | s
  · exact Or.inl rfl
  · rw [hn] at h
    have h2 : (if s = "" then (none : Option String) else some s) = none := h
    by_cases hs : s = ""
    · exact Or.inr (by rw [hs])
    · rw [if_neg hs] at h2
      exact absurd h2 (by simp)

theorem validName_some_cases (n : RawNode) (s : String) (h : validName n = some s) :
    n.name = some s ∧ s ≠ "" := by
  rw [validName] at h
  rcases hn : n.name with _ | t
  · rw [hn] at h
    have h2 : (none : Option String) = some s := h
    exact absurd h2 (by simp)
  · rw [hn] at h
    have h2 : (if t = "" then (none : Option String) else some t) = some s := h
    by_cases ht : t = ""
    · rw [if_pos ht] at h2
      exact absurd h2 (by simp)
    · rw [if_neg ht] at h2
      have hts : t = s := by simpa using h2
      subst hts
      exact ⟨rfl, ht⟩

theorem parse_step_of_valid_none (reg : List (String × NodeInfo))
    (kv : String × RawNode) (h : validName kv.2 = none) :
    parse_step reg kv = reg := by
  rcases validName_none_cases kv.2 h with h | h
  · exact parse_step_none reg kv h
  · exact parse_step_some_empty reg kv h

theorem parse_step_of_valid_some (reg : List (String × NodeInfo))
    (kv : String × RawNode) (s : String) (h : validName kv.2 = some s) :
    parse_step reg kv = registrySet reg s (mk_node_info s kv.2) := by
  rcases validName_some_cases kv.2 s h with ⟨h1, h2⟩
  exact parse_step_some reg kv s h1 h2

theorem parse_foldl_ne (data : List (String × RawNode)) :
    ∀ reg, reg ≠ [] → data.foldl parse_step reg ≠ [] := by
  induction data with
  | nil => intro reg h; exact h
  | cons kv rest ih =>
      intro reg h
      rw [List.foldl_cons]
      rcases hv : validName kv.2 with _ | s
      · rw [parse_step_of_valid_none reg kv hv]
        exact ih reg h
      · rw [parse_step_of_valid_some reg kv s hv]
        exact ih _ (registrySet_ne reg s (mk_node_info s kv.2))

theorem parse_foldl_empty_iff (data : List (String × RawNode)) :
    ∀ reg, data.foldl parse_step reg = []
      ↔ (reg = [] ∧ ∀ p ∈ data, validName p.2 = none) := by
  induction data with
  | nil =>
      intro reg
      constructor
      · intro h
        exact ⟨h, fun p hp => absurd hp (List.not_mem_nil p)⟩
      · intro h
        exact h.1
  | cons kv rest ih =>
      intro reg
      rw [List.foldl_cons]
      rcases hv : validName kv.2 with _ | s
      · rw [parse_step_of_valid_none reg kv hv, ih reg]
        constructor
        · intro ⟨h1, h2⟩
          refine ⟨h1, fun p hp => ?_⟩
          rcases List.mem_cons.mp hp with h | h
          · rw [h]
            exact hv
          · exact h2 p h
        · intro ⟨h1, h2⟩
          exact ⟨h1, fun p hp => h2 p (List.mem_cons_of_mem kv hp)⟩
      · rw [parse_step_of_valid_some reg kv s hv]
        constructor
        · intro h
          exact absurd h (parse_foldl_ne rest _ (registrySet_ne reg s (mk_node_info s kv.2)))
        · intro ⟨h1, h2⟩
          have := h2 kv (List.mem_cons_self kv rest)
          rw [hv] at this
          exact absurd this (by simp)

/-- Claim C9's counterexample: a successful refresh whose payload yields no
valid entry (here: an empty payload object) empties a previously non-empty
registry — the code clears the map before parsing and never restores it. -/
theorem claim_C9_counterexample :
    regStale.entries ≠ []
    ∧ (fetch_apply regStale 9 (.ok [])).entries = [] := by decide

set_option maxHeartbeats 1600000 in
/-- C9, amended: a failed refresh always leaves `entries` non-empty (stale
data or the fallback dataset), and a successful refresh replaces `entries`
wholesale with exactly the parsed payload — which is empty precisely when no
payload entry carries a truthy `name`, so such a payload can empty a
previously non-empty registry. -/
theorem claim_C9_theorem :
    (∀ (reg : Registry) (now : Nat), (fetch_apply reg now .err).entries ≠ [])
    ∧ (∀ (reg : Registry) (now : Nat) (data : List (String × RawNode)),
        (fetch_apply reg now (.ok data)).entries = parse_payload data)
    ∧ (∀ data : List (String × RawNode),
        parse_payload data = [] ↔ ∀ p ∈ data, validName p.2 = none) := by
  refine ⟨?_, ?_, ?_⟩
  · intro reg now
    rw [fetch_apply]
    by_cases h : reg.entries = []
    · rw [if_pos h]
      show add_fallback_nodes reg.entries ≠ []
      rw [h]
      decide
    · rw [if_neg h]
      exact h
  · intro reg now data
    rfl
  · intro data
    rw [parse_payload_eq_foldl, parse_foldl_empty_iff]
    simp

/-- Witness for C9's amended theorem at concrete inputs: a failing refresh on
an empty registry yields non-empty entries; success installs exactly the
parsed payload; the empty payload parses to the empty registry. -/
theorem claim_C9_witness :
    (fetch_apply ⟨[], 0⟩ 7 .err).entries ≠ []
    ∧ (fetch_apply regStale 9 (.ok [])).entries = parse_payload []
    ∧ (parse_payload [] = [] ↔ ∀ p ∈ ([] : List (String × RawNode)), validName p.2 = none) :=
  ⟨claim_C9_theorem.1 ⟨[], 0⟩ 7, claim_C9_theorem.2.1 regStale 9 [],
    claim_C9_theorem.2.2 []⟩

theorem registrySet_not_mem (reg : List (String × NodeInfo)) (k : String)
    (v : NodeInfo) (h : k ∉ reg.map Prod.fst) :
    registrySet reg k v = reg ++ [(k, v)] := by
  have hany : ¬ (reg.any (fun p => p.1 == k) = true) := by
    rw [List.any_eq_true]
    rintro ⟨p, hp, he⟩
    exact h (List.mem_map.mpr ⟨p, hp, by simpa using he⟩)
  rw [registrySet, if_neg hany]

theorem parse_foldl_filterMap :
    ∀ (data : List (String × RawNode)) (acc : List (String × NodeInfo)),
      (data.filterMap (fun p => validName p.2)).Nodup
      → (∀ s, s ∈ data.filterMap (fun p => validName p.2) → s ∉ acc.map Prod.fst)
      → data.foldl parse_step acc
          = acc ++ data.filterMap (fun p =>
              (validName p.2).map (fun s => (s, mk_node_info s p.2))) := by
  intro data
  induction data with
  | nil =>
      intro acc _ _
      rw [List.foldl_nil, List.filterMap_nil, List.append_nil]
  | cons kv rest ih =>
      intro acc hnd hdisj
      rw [List.foldl_cons]
      rcases hv : validName kv.2 with _ | s
      · simp only [List.filterMap_cons, hv, Option.map_none'] at hnd hdisj ⊢
        rw [parse_step_of_valid_none acc kv hv]
        exact ih acc hnd hdisj
      · simp only [List.filterMap_cons, hv, Option.map_some'] at hnd hdisj ⊢
        rw [parse_step_of_valid_some acc kv s hv]
        rw [registrySet_not_mem acc s _ (hdisj s (List.mem_cons_self _ _))]
        rw [ih (acc ++ [(s, mk_node_info s kv.2)]) (List.nodup_cons.mp hnd).2 ?_]
        · rw [List.append_assoc, List.singleton_append]
        · intro t ht hmem
          rw [List.map_append] at hmem
          rcases List.mem_append.mp hmem with h | h
          · exact hdisj t (List.mem_cons_of_mem _ ht) h
          · have hts : t = s := by simpa using h
            subst hts
            exact (List.nodup_cons.mp hnd).1 ht

/-- Claim C8's counterexample: an entry whose `displayName` is present but
empty.  The claim says `display_name` equals `displayName` when present; the
code's `node.displayName || node.name` treats the empty (falsy) string as
absent and stores the name instead. -/
def rawEmptyDN : RawNode := { name := some "a", displayName := some "" }

theorem claim_C8_counterexample :
    rawEmptyDN.displayName = some ""
    ∧ (parse_payload [("k", rawEmptyDN)]).map (fun p => p.2.display_name) = ["a"]
    ∧ ("a" : String) ≠ "" := by decide

/-- C8, amended: the refresh stores exactly the payload objects whose `name`
is present and non-empty, keyed by that name and in payload order (assuming
the stored names are distinct, as `Map` keys are); `display_name` equals
`displayName` when that field is present AND non-empty (a present-but-empty
`displayName` is falsy and falls back to `name`); `description`, the
comma-joined `group`, and `version` are passed through; an object without a
truthy name is skipped silently without rejecting the rest. -/
theorem claim_C8_theorem (data : List (String × RawNode))
    (hnd : (data.filterMap (fun p => validName p.2)).Nodup) :
    parse_payload data
      = data.filterMap (fun p =>
          (validName p.2).map (fun s => (s, mk_node_info s p.2))) := by
  rw [parse_payload_eq_foldl,
    parse_foldl_filterMap data [] hnd (fun s hs h => by simp at h)]
  rw [List.nil_append]

/-- A payload exercising every parsing rule: a plain valid entry, a missing
name, an empty name, and a fully-populated entry. -/
def c8Data : List (String × RawNode) :=
  [("k1", { name := some "a" }),
   ("k2", { name := none }),
   ("k3", { name := some "" }),
   ("k4", { name := some "b", displayName := some "B", description := some "d",
            group := some ["x", "y"], version := some 2 })]

/-- Witness for C8's amended theorem on `c8Data`. -/
theorem claim_C8_witness :
    parse_payload c8Data
      = c8Data.filterMap (fun p =>
          (validName p.2).map (fun s => (s, mk_node_info s p.2))) :=
  claim_C8_theorem c8Data (by decide)

/-! ## Validator (sequential execution)

`validate_node_type` and `validate_workflow_nodes` executed by a single
caller: every operation first awaits `ensure_node_registry_is_loaded`, which
fetches unless the cache is non-empty and fresh.  Fetch outcomes are supplied
by an oracle indexed by the number of fetches issued so far, and the batch
runs at a fixed instant `now` (it performs no waiting of its own). -/

/-- `CACHE_DURATION`: one hour in milliseconds. -/
def CACHE_DURATION : Nat := 60 * 60 * 1000

/-- The validator's sequential state: the registry and the number of remote
fetches issued so far. -/
structure VState where
  reg : Registry
  fetchCount : Nat
deriving DecidableEq

/-- `ensure_node_registry_is_loaded` for one sequential caller (no fetch can
be in flight between its statements): return at once when the cache is
non-empty and fresh, otherwise run `fetch_node_registry` with the next
oracle outcome. -/
def ensure_seq (now : Nat) (oracle : Nat → FetchResult) (s : VState) : VState :=
  if s.reg.entries ≠ [] ∧ now - s.reg.last_fetch_time < CACHE_DURATION then s
  else { reg := fetch_apply s.reg now (oracle s.fetchCount),
         fetchCount := s.fetchCount + 1 }

/-- `node_registry.has(node_type)`. -/
def registry_has (reg : Registry) (t : String) : Bool :=
  reg.entries.any (fun p => p.1 == t)

/-- `validate_node_type`'s result object. -/
structure ValidationResult where
  valid : Bool
  suggestion : Option String := none
deriving DecidableEq

/-- One entry of `validate_workflow_nodes`' output: the source pushes
`{node_type: node.type, suggestion}`. -/
structure BatchInvalidEntry where
  node_type : String
  suggestion : Option String := none
deriving DecidableEq

/-- `validate_node_type(node_type)`: awaits `ensure_node_registry_is_loaded`
(a further fetch if the cache is stale!), then a membership check, with a
similarity suggestion on miss. -/
def validate_node_type_seq (now : Nat) (oracle : Nat → FetchResult) (s : VState)
    (node_type : String) : VState × ValidationResult :=
  if registry_has (ensure_seq now oracle s).reg node_type then
    (ensure_seq now oracle s, { valid := true })
  else
    (ensure_seq now oracle s,
     { valid := false,
       suggestion := find_similar_node_type node_type
         (get_available_node_types (ensure_seq now oracle s).reg) })

/-- The body of `validate_workflow_nodes`' loop: validate one node (which
re-runs `ensure_node_registry_is_loaded`) and push an entry when invalid. -/
def batch_step (now : Nat) (oracle : Nat → FetchResult)
    (acc : VState × List BatchInvalidEntry) (t : String) :
    VState × List BatchInvalidEntry :=
  ((validate_node_type_seq now oracle acc.1 t).1,
   if (validate_node_type_seq now oracle acc.1 t).2.valid then acc.2
   else acc.2 ++ [{ node_type := t,
                    suggestion := (validate_node_type_seq now oracle acc.1 t).2.suggestion }])

/-- `validate_workflow_nodes(nodes)` (nodes represented by their declared
`type` strings): one up-front `ensure_node_registry_is_loaded`, then the
per-node loop. -/
def validate_workflow_nodes_seq (now : Nat) (oracle : Nat → FetchResult)
    (s : VState) (nodes : List String) : VState × List BatchInvalidEntry :=
  nodes.foldl (batch_step now oracle) (ensure_seq now oracle s, [])

/-- Claim C6's counterexample: with a stale non-empty cache and a remote that
keeps failing, the up-front refresh does not freshen the cache (the failure
path leaves `last_fetch_time` unchanged), so every per-node
`validate_node_type` issues its own remote fetch: a 2-node batch issues 3
fetches, not 1. -/
theorem claim_C6_counterexample :
    (validate_workflow_nodes_seq (CACHE_DURATION + 5) (fun _ => .err)
        { reg := regStale, fetchCount := 0 } ["a.known", "a.known"]).1.fetchCount = 3
    ∧ (3 : Nat) ≠ 1 := by decide

theorem ensure_seq_id (now : Nat) (oracle : Nat → FetchResult) (s : VState)
    (h : s.reg.entries ≠ [] ∧ now - s.reg.last_fetch_time < CACHE_DURATION) :
    ensure_seq now oracle s = s := by
  rw [ensure_seq, if_pos h]

theorem validate_node_fresh (now : Nat) (oracle : Nat → FetchResult) (s1 : VState)
    (t : String)
    (h : s1.reg.entries ≠ [] ∧ now - s1.reg.last_fetch_time < CACHE_DURATION) :
    validate_node_type_seq now oracle s1 t
      = (s1,
         if registry_has s1.reg t then { valid := true }
         else { valid := false,
                suggestion := find_similar_node_type t
                  (get_available_node_types s1.reg) }) := by
  rw [validate_node_type_seq, ensure_seq_id now oracle s1 h]
  by_cases hc : registry_has s1.reg t
  · rw [if_pos hc, if_pos hc]
  · rw [if_neg hc, if_neg hc]

theorem batch_fold_fresh (now : Nat) (oracle : Nat → FetchResult) (s1 : VState)
    (h : s1.reg.entries ≠ [] ∧ now - s1.reg.last_fetch_time < CACHE_DURATION) :
    ∀ (nodes : List String) (out : List BatchInvalidEntry),
      nodes.foldl (batch_step now oracle) (s1, out)
        = (s1, out ++ nodes.filterMap (fun t =>
            if registry_has s1.reg t then none
            else some { node_type := t,
                        suggestion := find_similar_node_type t
                          (get_available_node_types s1.reg) })) := by
  intro nodes
  induction nodes with
  | nil =>
      intro out
      rw [List.foldl_nil, List.filterMap_nil, List.append_nil]
  | cons t rest ih =>
      intro out
      rw [List.foldl_cons, List.filterMap_cons]
      have hstep : batch_step now oracle (s1, out) t
          = (s1,
             if registry_has s1.reg t then out
             else out ++ [{ node_type := t,
                            suggestion := find_similar_node_type t
                              (get_available_node_types s1.reg) }]) := by
        rw [batch_step, validate_node_fresh now oracle s1 t h]
        by_cases hc : registry_has s1.reg t
        · rw [if_pos hc]
          simp [hc]
        · rw [if_neg hc]
          simp [hc]
      rw [hstep]
      by_cases hc : registry_has s1.reg t
      · rw [if_pos hc, if_pos hc, ih out]
      · rw [if_neg hc, if_neg hc, ih _]
        rw [List.append_assoc, List.singleton_append]

/-- C6, amended: provided the up-front refresh leaves the cache non-empty
and fresh (as a successful fetch or the fallback path does), the batch's
per-node re-validations issue no further remote fetch — the final state is
exactly the state after the single up-front `ensureFresh` — and the output
lists exactly the nodes whose declared type fails validation, each as
`{node_type, suggestion?}` (the source's field is `node_type`, not the
spec's `type`), in input order, without deduplication of repeated invalid
types.  Without that freshness premise the claim fails: a failing refresh
over a stale non-empty cache leaves it stale and every node triggers its own
fetch. -/
theorem claim_C6_theorem (now : Nat) (oracle : Nat → FetchResult) (s : VState)
    (nodes : List String)
    (hfresh : (ensure_seq now oracle s).reg.entries ≠ []
      ∧ now - (ensure_seq now oracle s).reg.last_fetch_time < CACHE_DURATION) :
    validate_workflow_nodes_seq now oracle s nodes
      = (ensure_seq now oracle s,
         nodes.filterMap (fun t =>
           if registry_has (ensure_seq now oracle s).reg t then none
           else some { node_type := t,
                       suggestion := find_similar_node_type t
                         (get_available_node_types (ensure_seq now oracle s).reg) })) := by
  rw [validate_workflow_nodes_seq,
    batch_fold_fresh now oracle (ensure_seq now oracle s) hfresh nodes []]
  rw [List.nil_append]

/-- Witness for C6's amended theorem: a fresh one-entry cache, a batch with a
valid node repeated twice — no fetch is issued and the output is empty. -/
theorem claim_C6_witness :
    validate_workflow_nodes_seq 6 (fun _ => .err)
        { reg := regStale, fetchCount := 0 } ["a.known", "a.known"]
      = (ensure_seq 6 (fun _ => .err) { reg := regStale, fetchCount := 0 },
         (["a.known", "a.known"] : List String).filterMap (fun t =>
           if registry_has (ensure_seq 6 (fun _ => .err)
               { reg := regStale, fetchCount := 0 }).reg t then none
           else some { node_type := t,
                       suggestion := find_similar_node_type t
                         (get_available_node_types (ensure_seq 6 (fun _ => .err)
                           { reg := regStale, fetchCount := 0 }).reg) })) :=
  claim_C6_theorem 6 (fun _ => .err) { reg := regStale, fetchCount := 0 }
    ["a.known", "a.known"] (by decide)

/-! ## Single-flight coalescing of `ensure_node_registry_is_loaded`

JavaScript's scheduling is single-threaded and cooperative: code between
`await` points runs atomically.  `ensure_node_registry_is_loaded` therefore
decomposes into these atomic events per logical caller:

* `enter_join` — the caller finds `is_fetching && fetch_promise` and awaits
  the existing promise (lines 83–85);
* `enter_fresh` — the cache is non-empty and fresh, return at once
  (lines 87–90);
* `enter_start` — set `is_fetching`, create the promise, and issue the
  network request (`fetch_node_registry` runs synchronously up to its first
  `await`) (lines 92–93);
* `complete` — the network call resolves or rejects and the rest of
  `fetch_node_registry` (registry update or catch block) runs, settling the
  promise;
* `resume_init` — the starting caller's continuation runs the `finally`
  block, clearing `is_fetching` and `fetch_promise` (lines 97–100);
* `resume_join` — a joining caller's continuation observes the settled
  promise and returns;
* `tick` — the ambient clock advances.

Promises are numbered by the fetch counter; `netInFlight` is the network
request currently outstanding; `settled` is the set of settled promises. -/

/-- The program counter of one logical caller of
`ensure_node_registry_is_loaded`. -/
inductive CallerPC where
  | ready
  | waitJoin (p : Nat)
  | waitInit (p : Nat)
  | done
deriving DecidableEq

/-- A configuration of the validator shared state plus all callers. -/
structure CConfig where
  reg : Registry
  is_fetching : Bool
  fetch_promise : Option Nat
  netInFlight : Option Nat
  fetchCount : Nat
  settled : List Nat
  now : Nat
  callers : List CallerPC
deriving DecidableEq

/-- Small-step transition relation over interleaved callers of
`ensure_node_registry_is_loaded`. -/
inductive Step : CConfig → CConfig → Prop where
  | tick (c : CConfig) :
      Step c { c with now := c.now + 1 }
  | enter_join (c : CConfig) (i p : Nat) :
      c.callers[i]? = some .ready →
      c.is_fetching = true →
      c.fetch_promise = some p →
      Step c { c with callers := c.callers.set i (.waitJoin p) }
  | enter_fresh (c : CConfig) (i : Nat) :
      c.callers[i]? = some .ready →
      ¬(c.is_fetching = true ∧ c.fetch_promise ≠ none) →
      c.reg.entries ≠ [] →
      c.now - c.reg.last_fetch_time < CACHE_DURATION →
      Step c { c with callers := c.callers.set i .done }
  | enter_start (c : CConfig) (i : Nat) :
      c.callers[i]? = some .ready →
      ¬(c.is_fetching = true ∧ c.fetch_promise ≠ none) →
      ¬(c.reg.entries ≠ [] ∧ c.now - c.reg.last_fetch_time < CACHE_DURATION) →
      Step c { c with
        is_fetching := true
        fetch_promise := some c.fetchCount
        netInFlight := some c.fetchCount
        fetchCount := c.fetchCount + 1
        callers := c.callers.set i (.waitInit c.fetchCount) }
  | complete (c : CConfig) (p : Nat) (r : FetchResult) :
      c.netInFlight = some p →
      Step c { c with
        reg := fetch_apply c.reg c.now r
        netInFlight := none
        settled := p :: c.settled }
  | resume_join (c : CConfig) (i p : Nat) :
      c.callers[i]? = some (.waitJoin p) →
      p ∈ c.settled →
      Step c { c with callers := c.callers.set i .done }
  | resume_init (c : CConfig) (i p : Nat) :
      c.callers[i]? = some (.waitInit p) →
      p ∈ c.settled →
      Step c { c with
        is_fetching := false
        fetch_promise := none
        callers := c.callers.set i .done }

/-- An initial configuration: nothing in flight, no promise, no fetch issued,
every caller ready. -/
def InitC (c : CConfig) : Prop :=
  c.is_fetching = false ∧ c.fetch_promise = none ∧ c.netInFlight = none
  ∧ c.fetchCount = 0 ∧ c.settled = [] ∧ ∀ pc ∈ c.callers, pc = CallerPC.ready

/-- The global invariant: settled promises are numbered below the fetch
counter; an outstanding network request is owned by the current promise,
unsettled, and numbered below the counter; an initiating caller's promise is
the current one; and there is at most one initiating caller. -/
def Inv (c : CConfig) : Prop :=
  (∀ q ∈ c.settled, q < c.fetchCount)
  ∧ (∀ p, c.netInFlight = some p →
      c.is_fetching = true ∧ c.fetch_promise = some p ∧ p ∉ c.settled
        ∧ p < c.fetchCount)
  ∧ (∀ (i p : Nat), c.callers[i]? = some (CallerPC.waitInit p) →
      c.is_fetching = true ∧ c.fetch_promise = some p)
  ∧ (∀ (i j p q : Nat), c.callers[i]? = some (CallerPC.waitInit p)
      → c.callers[j]? = some (CallerPC.waitInit q) → i = j ∧ p = q)

theorem getElem?_set_cases (l : List CallerPC) (i j : Nat) (v : CallerPC)
    (pc : CallerPC) (h : (l.set i v)[j]? = some pc) :
    (i = j ∧ pc = v ∧ i < l.length) ∨ (i ≠ j ∧ l[j]? = some pc) := by
  by_cases hij : i = j
  · subst hij
    rw [List.getElem?_set, if_pos rfl] at h
    by_cases hl : i < l.length
    · rw [if_pos hl] at h
      injection h with h
      exact Or.inl ⟨rfl, h.symm, hl⟩
    · rw [if_neg hl] at h
      exact absurd h (by simp)
  · rw [List.getElem?_set_ne hij] at h
    exact Or.inr ⟨hij, h⟩

theorem inv_init {c : CConfig} (h : InitC c) : Inv c := by
  obtain ⟨hf, hp, hn, hc, hs, hr⟩ := h
  refine ⟨?_, ?_, ?_, ?_⟩
  · intro q hq
    rw [hs] at hq
    exact absurd hq (List.not_mem_nil q)
  · intro p hnet
    rw [hn] at hnet
    exact absurd hnet (by simp)
  · intro i p hi
    have := hr _ (List.getElem?_mem hi)
    exact absurd this (by simp)
  · intro i j p q hi hj
    have := hr _ (List.getElem?_mem hi)
    exact absurd this (by simp)

theorem inv_step {c c' : CConfig} (hinv : Inv c) (hstep : Step c c') : Inv c' := by
  obtain ⟨h1, h2, h3, h4⟩ := hinv
  cases hstep with
  | tick =>
      exact ⟨h1, h2, h3, h4⟩
  | enter_join i p hr hf hp =>
      refine ⟨h1, h2, ?_, ?_⟩
      · intro j q hj
        rcases getElem?_set_cases _ _ _ _ _ hj with ⟨_, hpc, _⟩ | ⟨_, hold⟩
        · exact absurd hpc (by simp)
        · exact h3 j q hold
      · intro i' j' p' q' hi hj
        rcases getElem?_set_cases _ _ _ _ _ hi with ⟨_, hpc, _⟩ | ⟨_, hi'⟩
        · exact absurd hpc (by simp)
        · rcases getElem?_set_cases _ _ _ _ _ hj with ⟨_, hpc, _⟩ | ⟨_, hj'⟩
          · exact absurd hpc (by simp)
          · exact h4 i' j' p' q' hi' hj'
  | enter_fresh i hr hg hne hfr =>
      refine ⟨h1, h2, ?_, ?_⟩
      · intro j q hj
        rcases getElem?_set_cases _ _ _ _ _ hj with ⟨_, hpc, _⟩ | ⟨_, hold⟩
        · exact absurd hpc (by simp)
        · exact h3 j q hold
      · intro i' j' p' q' hi hj
        rcases getElem?_set_cases _ _ _ _ _ hi with ⟨_, hpc, _⟩ | ⟨_, hi'⟩
        · exact absurd hpc (by simp)
        · rcases getElem?_set_cases _ _ _ _ _ hj with ⟨_, hpc, _⟩ | ⟨_, hj'⟩
          · exact absurd hpc (by simp)
          · exact h4 i' j' p' q' hi' hj'
  | enter_start i hr hg hst =>
      refine ⟨?_, ?_, ?_, ?_⟩
      · intro q hq
        exact Nat.lt_succ_of_lt (h1 q hq)
      · intro p hp
        injection hp with hp
        subst hp
        refine ⟨rfl, rfl, fun hmem => absurd (h1 _ hmem) (lt_irrefl _), Nat.lt_succ_self _⟩
      · intro j q hj
        rcases getElem?_set_cases _ _ _ _ _ hj with ⟨_, hpc, _⟩ | ⟨_, hold⟩
        · injection hpc with hpc
          subst hpc
          exact ⟨rfl, rfl⟩
        · obtain ⟨hf', hp'⟩ := h3 j q hold
          exact absurd ⟨hf', by rw [hp']; simp⟩ hg
      · intro i' j' p' q' hi hj
        rcases getElem?_set_cases _ _ _ _ _ hi with ⟨hii, hpc, _⟩ | ⟨_, hi'⟩
        · rcases getElem?_set_cases _ _ _ _ _ hj with ⟨hjj, hqc, _⟩ | ⟨_, hj'⟩
          · injection hpc with hpc
            injection hqc with hqc
            exact ⟨hii.symm.trans hjj, hpc.trans hqc.symm⟩
          · obtain ⟨hf', hp'⟩ := h3 j' q' hj'
            exact absurd ⟨hf', by rw [hp']; simp⟩ hg
        · obtain ⟨hf', hp'⟩ := h3 i' p' hi'
          exact absurd ⟨hf', by rw [hp']; simp⟩ hg
  | complete p r hnet =>
      obtain ⟨hf, hp, hns, hlt⟩ := h2 p hnet
      refine ⟨?_, ?_, ?_, ?_⟩
      · intro q hq
        rcases List.mem_cons.mp hq with hq | hq
        · rw [hq]
          exact hlt
        · exact h1 q hq
      · intro q hq
        exact absurd hq (by simp)
      · exact h3
      · exact h4
  | resume_join i p hr hs =>
      refine ⟨h1, h2, ?_, ?_⟩
      · intro j q hj
        rcases getElem?_set_cases _ _ _ _ _ hj with ⟨_, hpc, _⟩ | ⟨_, hold⟩
        · exact absurd hpc (by simp)
        · exact h3 j q hold
      · intro i' j' p' q' hi hj
        rcases getElem?_set_cases _ _ _ _ _ hi with ⟨_, hpc, _⟩ | ⟨_, hi'⟩
        · exact absurd hpc (by simp)
        · rcases getElem?_set_cases _ _ _ _ _ hj with ⟨_, hpc, _⟩ | ⟨_, hj'⟩
          · exact absurd hpc (by simp)
          · exact h4 i' j' p' q' hi' hj'
  | resume_init i p hr hs =>
      have hnet : c.netInFlight = none := by
        rcases hn : c.netInFlight with _ | q
        · rfl
        · obtain ⟨hf', hp', hns', _⟩ := h2 q hn
          obtain ⟨_, hp2⟩ := h3 i p hr
          rw [hp'] at hp2
          injection hp2 with hp2
          rw [hp2] at hns'
          exact absurd hs hns'
      refine ⟨h1, ?_, ?_, ?_⟩
      · intro q hq
        rw [hnet] at hq
        exact absurd hq (by simp)
      · intro j q hj
        rcases getElem?_set_cases _ _ _ _ _ hj with ⟨_, hpc, _⟩ | ⟨hne, hold⟩
        · exact absurd hpc (by simp)
        · exact absurd ((h4 j i q p hold hr).1) (fun he => hne he.symm)
      · intro i' j' p' q' hi hj
        rcases getElem?_set_cases _ _ _ _ _ hi with ⟨_, hpc, _⟩ | ⟨hne, hi'⟩
        · exact absurd hpc (by simp)
        · exact absurd ((h4 i' i p' p hi' hr).1) (fun he => hne he.symm)

theorem inv_reach {c0 c : CConfig} (hinit : InitC c0)
    (hr : Relation.ReflTransGen Step c0 c) : Inv c := by
  induction hr with
  | refl => exact inv_init hinit
  | tail _ hstep ih => exact inv_step ih hstep

theorem fetch_issue_only_idle {c c' : CConfig} (hinv : Inv c) (hstep : Step c c')
    (hlt : c.fetchCount < c'.fetchCount) :
    c.netInFlight = none ∧ c'.fetchCount = c.fetchCount + 1
      ∧ c'.netInFlight = some c.fetchCount := by
  cases hstep with
  | tick => exact absurd hlt (lt_irrefl _)
  | enter_join i p hr hf hp => exact absurd hlt (lt_irrefl _)
  | enter_fresh i hr hg hne hfr => exact absurd hlt (lt_irrefl _)
  | enter_start i hr hg hst =>
      refine ⟨?_, rfl, rfl⟩
      rcases hn : c.netInFlight with _ | q
      · rfl
      · obtain ⟨hf', hp', _, _⟩ := hinv.2.1 q hn
        exact absurd ⟨hf', by rw [hp']; simp⟩ hg
  | complete p r hnet => exact absurd hlt (lt_irrefl _)
  | resume_join i p hr hs => exact absurd hlt (lt_irrefl _)
  | resume_init i p hr hs => exact absurd hlt (lt_irrefl _)

/-- Staleness as `ensure_node_registry_is_loaded` tests it. -/
def Stale (c : CConfig) : Prop :=
  ¬(c.reg.entries ≠ [] ∧ c.now - c.reg.last_fetch_time < CACHE_DURATION)

/-- A step during the arrival phase: any step that settles no promise (the
remote fetch has not yet completed). -/
def ArrivalStep (c c' : CConfig) : Prop := Step c c' ∧ c'.settled = c.settled

/-- Scenario invariant for the arrival phase from a stale idle configuration
`c0`: either nobody has entered yet, or exactly one fetch (promise `0`) has
been issued and every caller is still ready or awaiting that same promise. -/
def ScenInv (c0 c : CConfig) : Prop :=
  c.reg = c0.reg ∧ c0.now ≤ c.now ∧ c.settled = []
  ∧ ((c.fetchCount = 0 ∧ c.is_fetching = false ∧ c.fetch_promise = none
        ∧ c.netInFlight = none ∧ ∀ pc ∈ c.callers, pc = CallerPC.ready)
     ∨ (c.fetchCount = 1 ∧ c.is_fetching = true ∧ c.fetch_promise = some 0
        ∧ c.netInFlight = some 0
        ∧ ∀ pc ∈ c.callers, pc = CallerPC.ready ∨ pc = CallerPC.waitInit 0
            ∨ pc = CallerPC.waitJoin 0))

theorem scen_inv_step {c0 c c' : CConfig} (hstale : Stale c0)
    (hinv : ScenInv c0 c) (hstep : ArrivalStep c c') : ScenInv c0 c' := by
  obtain ⟨hreg, hnow, hset, hcase⟩ := hinv
  obtain ⟨hstep, hsettled⟩ := hstep
  cases hstep with
  | tick =>
      exact ⟨hreg, le_trans hnow (Nat.le_succ _), hset, hcase⟩
  | enter_join i p hr hf hp =>
      rcases hcase with ⟨_, hf0, _, _, _⟩ | ⟨hc1, hf1, hp1, hn1, hall⟩
      · rw [hf0] at hf
        exact absurd hf (by simp)
      · have hp0 : p = 0 := by
          rw [hp1] at hp
          injection hp with hp
          exact hp.symm
        refine ⟨hreg, hnow, hset, Or.inr ⟨hc1, hf1, hp1, hn1, ?_⟩⟩
        intro pc hpc
        rcases List.mem_or_eq_of_mem_set hpc with hmem | hv
        · exact hall pc hmem
        · right; right
          rw [hv, hp0]
  | enter_fresh i hr hg hne hfr =>
      exact absurd ⟨hreg ▸ hne, lt_of_le_of_lt (Nat.sub_le_sub_right hnow _) (hreg ▸ hfr)⟩
        hstale
  | enter_start i hr hg hst =>
      rcases hcase with ⟨hc0, hf0, hp0, hn0, hall⟩ | ⟨_, hf1, hp1, _, _⟩
      · refine ⟨hreg, hnow, hset,
          Or.inr ⟨by rw [hc0], rfl, by rw [hc0], by rw [hc0], ?_⟩⟩
        intro pc hpc
        rcases List.mem_or_eq_of_mem_set hpc with hmem | hv
        · exact Or.inl (hall pc hmem)
        · right; left
          rw [hv, hc0]
      · exact absurd ⟨hf1, by rw [hp1]; simp⟩ hg
  | complete p r hnet =>
      exact absurd hsettled (List.cons_ne_self p c.settled)
  | resume_join i p hr hs =>
      rw [hset] at hs
      exact absurd hs (List.not_mem_nil p)
  | resume_init i p hr hs =>
      rw [hset] at hs
      exact absurd hs (List.not_mem_nil p)

theorem scen_inv_reach {c0 c : CConfig} (hinit : InitC c0) (hstale : Stale c0)
    (hr : Relation.ReflTransGen ArrivalStep c0 c) : ScenInv c0 c := by
  induction hr with
  | refl =>
      obtain ⟨hf, hp, hn, hc, hs, hready⟩ := hinit
      exact ⟨rfl, le_rfl, hs, Or.inl ⟨hc, hf, hp, hn, hready⟩⟩
  | tail _ hstep ih => exact scen_inv_step hstale ih hstep

/-- Claim C1: single-flight coalescing of `ensure_node_registry_is_loaded`.
First conjunct: from any initial configuration, a step that issues a remote
fetch happens only when no fetch is outstanding (`netInFlight` is an
`Option`, so there is never more than one in flight, and no second one is
started while one is outstanding).  Second conjunct: when N callers invoke
`ensureFresh` on a stale cache and at least one has entered before the fetch
completes, exactly one remote fetch has been issued (`fetchCount = 1`) and
every caller that has entered awaits that same promise `0`, whose network
request is the outstanding one — so all of them observe its outcome. -/
theorem claim_C1_theorem :
    (∀ c0 c c' : CConfig, InitC c0 → Relation.ReflTransGen Step c0 c →
      Step c c' → c.fetchCount < c'.fetchCount →
      c.netInFlight = none ∧ c'.fetchCount = c.fetchCount + 1
        ∧ c'.netInFlight = some c.fetchCount)
    ∧ (∀ c0 c : CConfig, InitC c0 → Stale c0 →
      Relation.ReflTransGen ArrivalStep c0 c →
      (∃ (i : Nat) (pc : CallerPC), c.callers[i]? = some pc ∧ pc ≠ CallerPC.ready) →
      c.fetchCount = 1 ∧ c.fetch_promise = some 0 ∧ c.netInFlight = some 0
        ∧ ∀ (i : Nat) (pc : CallerPC), c.callers[i]? = some pc →
            pc = CallerPC.ready ∨ pc = CallerPC.waitInit 0
              ∨ pc = CallerPC.waitJoin 0) := by
  constructor
  · intro c0 c c' hinit hreach hstep hlt
    exact fetch_issue_only_idle (inv_reach hinit hreach) hstep hlt
  · intro c0 c hinit hstale hreach ⟨i, pc, hi, hne⟩
    obtain ⟨hreg, hnow, hset, hcase⟩ := scen_inv_reach hinit hstale hreach
    rcases hcase with ⟨_, _, _, _, hall⟩ | ⟨hc1, _, hp1, hn1, hall⟩
    · exact absurd (hall pc (List.getElem?_mem hi)) hne
    · exact ⟨hc1, hp1, hn1, fun j pc' hj => hall pc' (List.getElem?_mem hj)⟩

/-- A two-caller initial configuration over an empty (hence stale) cache. -/
def c0ex : CConfig :=
  { reg := ⟨[], 0⟩, is_fetching := false, fetch_promise := none,
    netInFlight := none, fetchCount := 0, settled := [], now := 0,
    callers := [.ready, .ready] }

/-- `c0ex` after the first caller enters and issues the fetch. -/
def c1ex : CConfig :=
  { c0ex with
    is_fetching := true
    fetch_promise := some 0
    netInFlight := some 0
    fetchCount := 1
    callers := c0ex.callers.set 0 (.waitInit 0) }

/-- `c1ex` after the second caller arrives and joins the in-flight fetch. -/
def c2ex : CConfig :=
  { c1ex with callers := c1ex.callers.set 1 (.waitJoin 0) }

theorem c0ex_to_c1ex : ArrivalStep c0ex c1ex :=
  ⟨Step.enter_start c0ex 0 (by decide) (by decide) (by decide), rfl⟩

theorem c1ex_to_c2ex : ArrivalStep c1ex c2ex :=
  ⟨Step.enter_join c1ex 1 0 (by decide) rfl rfl, rfl⟩

/-- Witness for C1 on a concrete two-caller run: after the first caller
starts the fetch and the second joins, exactly one fetch has been issued and
both callers await promise `0`. -/
theorem claim_C1_witness :
    c2ex.fetchCount = 1 ∧ c2ex.fetch_promise = some 0
      ∧ c2ex.netInFlight = some 0 := by
  have h := claim_C1_theorem.2 c0ex c2ex
    ⟨rfl, rfl, rfl, rfl, rfl, by decide⟩ (fun h => h.1 rfl)
    (Relation.ReflTransGen.tail (Relation.ReflTransGen.tail
      Relation.ReflTransGen.refl c0ex_to_c1ex) c1ex_to_c2ex)
    ⟨0, .waitInit 0, by decide, by decide⟩
  exact ⟨h.1, h.2.1, h.2.2.1⟩

end NodeMCP
